import Mathlib

/-!
Verification of the per-profile persistent storage and credential subsystem
of the browser repository.  The TypeScript storage modules are shallowly
embedded: each JSON document is modelled by its decoded value, a file read
that may fail (missing file, corrupt JSON, failed decryption) is modelled by
an `Except String` value, and the try/catch fallback logic of `readJSON` /
`readEncrypted` is translated explicitly.  Timestamps (`Date.now()`) and
random values (`Math.random`, `crypto.randomBytes`, `pbkdf2Sync`) are passed
as explicit parameters, since the source consumes them as opaque inputs.
-/

set_option linter.unusedVariables false

/-- JSON-like values as produced by `JSON.parse` for a settings document
field.  Only the shapes the claims need are represented. -/
inductive JVal where
  | str (s : String)
  | boolean (b : Bool)
  | num (n : Int)
  | null
deriving DecidableEq, Repr

/-- A parsed JSON object: a finite list of key/value bindings.  Objects
produced by `JSON.parse` have no duplicate keys; lookup takes the first
binding. -/
abbrev JObj := List (String × JVal)

/-- Property access `o[k]` on a parsed JSON object. -/
def jget (o : JObj) (k : String) : Option JVal :=
  List.lookup k o

/-- JavaScript object spread `{ ...a, ...b }`: keys of both objects are
present in the result and a key occurring in both takes its value from `b`.
With first-binding lookup this is modelled by putting the bindings of `b`
first. -/
def jmerge (a b : JObj) : JObj := b ++ a

/-- Profile record (interface Profile in the storage module). -/
structure Profile where
  id : String
  name : String
  avatar : String
  createdAt : Nat
  isDefault : Bool
deriving DecidableEq, Repr

/-- Bookmark record. -/
structure Bookmark where
  url : String
  title : String
  addedAt : Nat
deriving DecidableEq, Repr

/-- History entry record. -/
structure HistoryEntry where
  url : String
  title : String
  visitedAt : Nat
deriving DecidableEq, Repr

/-- Session tab record. -/
structure SessionTab where
  url : String
  title : String
deriving DecidableEq, Repr

/-- Download lifecycle state (the string enum of DownloadItem.state). -/
inductive DownloadState where
  | progressing
  | completed
  | cancelled
  | interrupted
deriving DecidableEq, Repr

/-- Download record. -/
structure DownloadItem where
  id : String
  filename : String
  url : String
  savePath : String
  totalBytes : Nat
  receivedBytes : Nat
  state : DownloadState
  startedAt : Nat
deriving DecidableEq, Repr

/-- Stored credential record (interface AuthCredentials). -/
structure AuthCredentials where
  email : String
  passwordHash : String
  salt : String
  createdAt : Nat
deriving DecidableEq, Repr

/-- Login-session record (interface AuthState). -/
structure AuthState where
  isLoggedIn : Bool
  email : Option String
  token : Option String
  profileId : Option String
deriving DecidableEq, Repr

/-- Result value of registerUser / loginUser: a TS object
of shape { success: boolean; error?: string }. -/
structure AuthResult where
  success : Bool
  error : Option String
deriving DecidableEq, Repr

/-- readJSON / readEncrypted: try { return decoded document } catch { return
fallback }.  The argument carries the outcome of reading and decoding the
file (error = the exception the read/parse/decrypt would have thrown). -/
def readJSON {α : Type} (doc : Except String α) (fallback : α) : α :=
  match doc with
  | .ok v => v
  | .error _ => fallback

/-!
Document-level operations of the per-profile storage module (the variant
with profiles and auth).  Each function maps the decoded prior document to
the decoded document written back (which is also what the source returns,
where it returns the list).
-/

namespace PStorage

/-- addBookmark(url, title): push { url, title, addedAt: Date.now() } unless
some stored bookmark already has this url. -/
def addBookmark (url title : String) (now : Nat) (bookmarks : List Bookmark) :
    List Bookmark :=
  if bookmarks.any (fun b => b.url == url) then bookmarks
  else bookmarks ++ [{ url := url, title := title, addedAt := now }]

/-- removeBookmark(url): filter out entries with this url. -/
def removeBookmark (url : String) (bookmarks : List Bookmark) : List Bookmark :=
  bookmarks.filter (fun b => b.url != url)

/-- isBookmarked(url): membership test by url. -/
def isBookmarked (url : String) (bookmarks : List Bookmark) : Bool :=
  bookmarks.any (fun b => b.url == url)

/-- addHistoryEntry(url, title): unshift the new entry, then truncate the
array to length 1000 when it exceeds 1000. -/
def addHistoryEntry (url title : String) (now : Nat)
    (history : List HistoryEntry) : List HistoryEntry :=
  let h := ({ url := url, title := title, visitedAt := now } : HistoryEntry) :: history
  if 1000 < h.length then h.take 1000 else h

/-- clearHistory(): replace the document with the empty array. -/
def clearHistory : List HistoryEntry := []

/-- s.includes(sub) on JavaScript strings. -/
def strIncludes (s sub : String) : Bool :=
  s.data.tails.any (fun t => sub.data.isPrefixOf t)

/-- searchHistory(query): case-insensitive substring match over url and
title, in existing history order. -/
def searchHistory (query : String) (history : List HistoryEntry) :
    List HistoryEntry :=
  let q := query.toLower
  history.filter (fun h => strIncludes h.url.toLower q || strIncludes h.title.toLower q)

/-- The fixed defaultSettings object of the per-profile storage module. -/
def defaultSettingsObj : JObj :=
  [("searchEngine", JVal.str "duckduckgo"),
   ("adBlockEnabled", JVal.boolean true),
   ("restoreSession", JVal.boolean true)]

/-- getSettings(): { ...defaultSettings, ...readJSON(path, {}) } applied to
the decoded on-disk document. -/
def getSettingsDoc (doc : JObj) : JObj :=
  jmerge defaultSettingsObj doc

/-- updateSettings(patch): { ...getSettings(), ...patch }, written back
wholesale. -/
def updateSettingsDoc (patch doc : JObj) : JObj :=
  jmerge (getSettingsDoc doc) patch

/-- saveSession(tabs): the document is replaced wholesale by the snapshot. -/
def saveSession (tabs : List SessionTab) : List SessionTab := tabs

/-- saveDownload(item): replace in place at the index of the first entry
with the same id, otherwise unshift; then truncate to length 100 when the
array exceeds 100. -/
def saveDownload (item : DownloadItem) (downloads : List DownloadItem) :
    List DownloadItem :=
  let d :=
    match downloads.findIdx? (fun d => d.id == item.id) with
    | some idx => downloads.set idx item
    | none => item :: downloads
  if 100 < d.length then d.take 100 else d

/-- clearDownloads(): replace the document with the empty array. -/
def clearDownloads : List DownloadItem := []

end PStorage

/-!
Document-level operations of the plain (global-directory) storage module.
The bodies are transcribed from that module's own source.
-/

namespace Storage

/-- addBookmark of the plain variant. -/
def addBookmark (url title : String) (now : Nat) (bookmarks : List Bookmark) :
    List Bookmark :=
  if bookmarks.any (fun b => b.url == url) then bookmarks
  else bookmarks ++ [{ url := url, title := title, addedAt := now }]

/-- addHistoryEntry of the plain variant: unshift then keep last 1000. -/
def addHistoryEntry (url title : String) (now : Nat)
    (history : List HistoryEntry) : List HistoryEntry :=
  let h := ({ url := url, title := title, visitedAt := now } : HistoryEntry) :: history
  if 1000 < h.length then h.take 1000 else h

/-- saveSession of the plain variant: wholesale replace. -/
def saveSession (tabs : List SessionTab) : List SessionTab := tabs

/-- saveDownload of the plain variant: upsert by id then keep last 100. -/
def saveDownload (item : DownloadItem) (downloads : List DownloadItem) :
    List DownloadItem :=
  let d :=
    match downloads.findIdx? (fun d => d.id == item.id) with
    | some idx => downloads.set idx item
    | none => item :: downloads
  if 100 < d.length then d.take 100 else d

end Storage

/-!
Process/disk state.  Each document slot carries the outcome of reading and
decoding that file (ok = decoded content, error = the exception the raw
read, JSON.parse or decryptData would throw: missing file, corrupt JSON,
malformed envelope or failed authentication).  Writes always store a decoded
value.  The per-profile namespace is a map from profile id to that profile's
document slots; deleting a profile's directory resets its slots to
missing. -/

/-- The five per-profile documents of one profile directory. -/
structure ProfDocs where
  bookmarksD : Except String (List Bookmark)
  historyD : Except String (List HistoryEntry)
  settingsD : Except String JObj
  sessionD : Except String (List SessionTab)
  downloadsD : Except String (List DownloadItem)

/-- A profile directory with no documents (fresh or just deleted). -/
def emptyProfDocs : ProfDocs :=
  { bookmarksD := .error "ENOENT", historyD := .error "ENOENT",
    settingsD := .error "ENOENT", sessionD := .error "ENOENT",
    downloadsD := .error "ENOENT" }

/-- Full storage state: the global documents, the per-profile namespaces and
the in-memory active-profile pointer. -/
structure St where
  profilesD : Except String (List Profile)
  credsD : Except String (List AuthCredentials)
  authD : Except String AuthState
  prof : String → ProfDocs
  activeProfileId : String

/-- A fresh data root: no documents exist and the active profile is the
default one. -/
def freshSt : St :=
  { profilesD := .error "ENOENT", credsD := .error "ENOENT",
    authD := .error "ENOENT", prof := fun _ => emptyProfDocs,
    activeProfileId := "default" }

/-- Documents of the currently active profile. -/
def St.active (st : St) : ProfDocs := st.prof st.activeProfileId

/-- Replace the document slots of one profile id. -/
def St.setProf (st : St) (id : String) (d : ProfDocs) : St :=
  { st with prof := fun p => if p = id then d else st.prof p }

/-!  Profile operations (per-profile storage module).  Date.now() is the
`now` parameter; the random id suffix of createProfile is the `suffix`
parameter. -/

/-- getProfiles(): read the global profiles document; when the list is
empty, self-initialize it with the single default profile. -/
def getProfilesSt (now : Nat) (st : St) : St × List Profile :=
  let profiles := readJSON st.profilesD []
  if profiles.isEmpty then
    let defp : Profile :=
      { id := "default", name := "Default", avatar := "person",
        createdAt := now, isDefault := true }
    ({ st with profilesD := .ok [defp] }, [defp])
  else (st, profiles)

/-- createProfile(name, avatar): append a fresh profile whose id is
"profile-" ++ timestamp ++ "-" ++ random suffix, isDefault = false. -/
def createProfileSt (name avatar : String) (now : Nat) (suffix : String)
    (st : St) : St × Profile :=
  let (st1, profiles) := getProfilesSt now st
  let p : Profile :=
    { id := "profile-" ++ toString now ++ "-" ++ suffix, name := name,
      avatar := avatar, createdAt := now, isDefault := false }
  ({ st1 with profilesD := .ok (profiles ++ [p]) }, p)

/-- deleteProfile(id): no-op returning getProfiles() when id is "default";
otherwise filter the entry out, write the list back, recursively remove the
profile's directory, reset the active pointer to "default" when it pointed
at the deleted profile, and return getProfiles(). -/
def deleteProfileSt (id : String) (now : Nat) (st : St) : St × List Profile :=
  if id = "default" then getProfilesSt now st
  else
    let (st1, profs) := getProfilesSt now st
    let profiles := profs.filter (fun p => p.id != id)
    let st2 := { st1 with profilesD := .ok profiles }
    let st3 := st2.setProf id emptyProfDocs
    let st4 :=
      if st3.activeProfileId = id then { st3 with activeProfileId := "default" }
      else st3
    getProfilesSt now st4

/-- switchProfile(id): return null and change nothing when no profile has
this id; otherwise set the active pointer. -/
def switchProfileSt (id : String) (now : Nat) (st : St) : St × Option Profile :=
  let (st1, profiles) := getProfilesSt now st
  match profiles.find? (fun p => p.id == id) with
  | none => (st1, none)
  | some p => ({ st1 with activeProfileId := id }, some p)

/-- getActiveProfile(): the profile with the active id, falling back to
profiles[0] (getProfiles() never returns an empty list, so the extra
fallback value of the total model is never reached). -/
def getActiveProfileSt (now : Nat) (fallback : Profile) (st : St) : St × Profile :=
  let (st1, profiles) := getProfilesSt now st
  (st1, ((profiles.find? (fun p => p.id == st1.activeProfileId)).getD
    (profiles.headD fallback)))

/-!  Auth operations.  pbkdf2Sync with the fixed iteration/length/digest
parameters is the function parameter `H` (password, salt ↦ hex hash);
crypto.randomBytes outputs are the `salt` / `token` parameters. -/

/-- getAuthState(): read the encrypted auth document, logged-out fallback. -/
def getAuthStateSt (st : St) : AuthState :=
  readJSON st.authD
    { isLoggedIn := false, email := none, token := none, profileId := none }

/-- registerUser(email, password): fail when the email is taken; otherwise
push the new salted credential record, persist it, and save a logged-in
AuthState carrying a fresh token and the active profile id. -/
def registerUserSt (H : String → String → String) (salt token : String)
    (now : Nat) (email password : String) (st : St) : St × AuthResult :=
  let creds := readJSON st.credsD []
  if creds.any (fun c => c.email == email) then
    (st, { success := false, error := some "Email already registered" })
  else
    let rec_ : AuthCredentials :=
      { email := email, passwordHash := H password salt, salt := salt, createdAt := now }
    let authv : AuthState :=
      { isLoggedIn := true, email := some email, token := some token, profileId := some st.activeProfileId }
    ({ st with credsD := .ok (creds ++ [rec_]), authD := .ok authv },
     { success := true, error := none })

/-- loginUser(email, password): recompute the hash with the stored salt and
compare; unknown email and wrong password both fail with the same message
and leave the state untouched; success saves a fresh logged-in AuthState. -/
def loginUserSt (H : String → String → String) (token : String)
    (email password : String) (st : St) : St × AuthResult :=
  let creds := readJSON st.credsD []
  match creds.find? (fun c => c.email == email) with
  | none => (st, { success := false, error := some "Invalid email or password" })
  | some user =>
    if H password user.salt != user.passwordHash then
      (st, { success := false, error := some "Invalid email or password" })
    else
      let authv : AuthState :=
        { isLoggedIn := true, email := some email, token := some token, profileId := some st.activeProfileId }
      ({ st with authD := .ok authv }, { success := true, error := none })

/-- logoutUser(): overwrite the AuthState with the logged-out value. -/
def logoutUserSt (st : St) : St :=
  { st with authD := .ok { isLoggedIn := false, email := none, token := none, profileId := none } }

/-!  State-level domain-store operations of the per-profile module: read the
active profile's document (with fallback), apply the document-level
operation, write the result back. -/

/-- getBookmarks() at state level. -/
def getBookmarksSt (st : St) : List Bookmark :=
  readJSON st.active.bookmarksD []

/-- addBookmark(url, title) at state level. -/
def addBookmarkSt (url title : String) (now : Nat) (st : St) : St × List Bookmark :=
  let bs := PStorage.addBookmark url title now (getBookmarksSt st)
  (st.setProf st.activeProfileId { st.active with bookmarksD := .ok bs }, bs)

/-- getHistory() at state level. -/
def getHistorySt (st : St) : List HistoryEntry :=
  readJSON st.active.historyD []

/-- addHistoryEntry(url, title) at state level. -/
def addHistoryEntrySt (url title : String) (now : Nat) (st : St) : St :=
  let h := PStorage.addHistoryEntry url title now (getHistorySt st)
  st.setProf st.activeProfileId { st.active with historyD := .ok h }

/-- getSettings() at state level. -/
def getSettingsSt (st : St) : JObj :=
  PStorage.getSettingsDoc (readJSON st.active.settingsD [])

/-- getSession() at state level. -/
def getSessionSt (st : St) : List SessionTab :=
  readJSON st.active.sessionD []

/-- getDownloads() at state level. -/
def getDownloadsSt (st : St) : List DownloadItem :=
  readJSON st.active.downloadsD []

/-!  Claim C10: behavioural equivalence of the two storage-module variants
on the bookmarks, history, session and downloads operations. -/

/-- C10: given the same prior document content and the same clock value, the
plain and the per-profile storage variants of addBookmark, addHistoryEntry,
saveSession and saveDownload return the same value and produce the same new
document content; only the file location differs. -/
theorem storage_variant_equivalence (url title : String) (now : Nat)
    (bs : List Bookmark) (hs : List HistoryEntry) (tabs : List SessionTab)
    (item : DownloadItem) (ds : List DownloadItem) :
    Storage.addBookmark url title now bs = PStorage.addBookmark url title now bs ∧
    Storage.addHistoryEntry url title now hs = PStorage.addHistoryEntry url title now hs ∧
    Storage.saveSession tabs = PStorage.saveSession tabs ∧
    Storage.saveDownload item ds = PStorage.saveDownload item ds :=
  ⟨rfl, rfl, rfl, rfl⟩

/-!  Claim C7: bookmark-add idempotence. -/

/-- C7 counterexample: the claim quantifies over every starting bookmark
list, but on a starting list that already holds two entries with the same
url, calling addBookmark twice with that url leaves two stored entries for
it, not exactly one. -/
theorem addBookmark_duplicate_url_cex :
    ¬ (((PStorage.addBookmark "u" "t2" 3 (PStorage.addBookmark "u" "t1" 2
        [{ url := "u", title := "a", addedAt := 0 },
         { url := "u", title := "b", addedAt := 1 }])).filter
          (fun b => b.url == "u")).length = 1) := by decide

/-- C7 (amended): for every starting bookmark list in which no two entries
share a url — the invariant addBookmark itself maintains — calling
addBookmark twice with the same url yields exactly one stored entry for that
url, the second call leaves the stored list unchanged, and the first call
either leaves the list unchanged or appends the new entry at the end
(insertion order preserved). -/
theorem addBookmark_once_per_url (l : List Bookmark) (url t1 t2 : String)
    (n1 n2 : Nat) (hnd : (l.map Bookmark.url).Nodup) :
    PStorage.addBookmark url t2 n2 (PStorage.addBookmark url t1 n1 l) =
      PStorage.addBookmark url t1 n1 l ∧
    ((PStorage.addBookmark url t1 n1 l).filter (fun b => b.url == url)).length = 1 ∧
    (PStorage.addBookmark url t1 n1 l = l ∨
      PStorage.addBookmark url t1 n1 l = l ++ [{ url := url, title := t1, addedAt := n1 }]) := by
  by_cases h : l.any (fun b => b.url == url)
  · have h1 : PStorage.addBookmark url t1 n1 l = l := by
      simp only [PStorage.addBookmark, h, if_true]
    have h1b : PStorage.addBookmark url t2 n2 l = l := by
      simp only [PStorage.addBookmark, h, if_true]
    refine ⟨by rw [h1, h1b], ?_, Or.inl h1⟩
    rw [h1]
    obtain ⟨b, hb, hbu⟩ := List.any_eq_true.mp h
    have hbu' : b.url = url := by simpa using hbu
    have hmem : url ∈ l.map Bookmark.url := hbu' ▸ List.mem_map_of_mem _ hb
    have hcount : (l.map Bookmark.url).count url = 1 :=
      List.count_eq_one_of_mem hnd hmem
    calc ((l.filter (fun b => b.url == url)).length)
        = l.countP (fun b => b.url == url) := (List.countP_eq_length_filter _ _).symm
      _ = (l.map Bookmark.url).countP (fun s => s == url) :=
          (List.countP_map (fun s => s == url) Bookmark.url l).symm
      _ = (l.map Bookmark.url).count url := rfl
      _ = 1 := hcount
  · have hall : ∀ b ∈ l, ¬ (b.url == url) := by
      intro b hb
      have := List.any_eq_false.mp (Bool.of_not_eq_true h)
      simpa using this b hb
    have h2 : PStorage.addBookmark url t1 n1 l =
        l ++ [{ url := url, title := t1, addedAt := n1 }] := by
      simp [PStorage.addBookmark, h]
    refine ⟨?_, ?_, Or.inr h2⟩
    · rw [h2]
      have hany : (l ++ [({ url := url, title := t1, addedAt := n1 } : Bookmark)]).any
          (fun b => b.url == url) = true := by
        simp [List.any_append]
      simp only [PStorage.addBookmark, hany, if_true]
    · rw [h2, List.filter_append]
      have hl : l.filter (fun b => b.url == url) = [] :=
        List.filter_eq_nil_iff.mpr (by simpa using hall)
      simp [hl]

/-- C7 witness: the amended theorem applied to the empty starting list. -/
theorem addBookmark_once_per_url_witness :
    (([] : List Bookmark).map Bookmark.url).Nodup ∧
    (PStorage.addBookmark "u" "t2" 2 (PStorage.addBookmark "u" "t1" 1 []) =
      PStorage.addBookmark "u" "t1" 1 [] ∧
     ((PStorage.addBookmark "u" "t1" 1 []).filter (fun b => b.url == "u")).length = 1 ∧
     (PStorage.addBookmark "u" "t1" 1 [] = [] ∨
      PStorage.addBookmark "u" "t1" 1 [] =
        [] ++ [{ url := "u", title := "t1", addedAt := 1 }])) :=
  ⟨by decide, addBookmark_once_per_url [] "u" "t1" "t2" 1 2 (by decide)⟩

/-!  Claim C8: settings defaulting. -/

/-- C8 counterexample: an on-disk field outside the three known settings
fields is not absent from the getSettings() result — the object spread in
the source copies unknown fields into the returned object. -/
theorem getSettings_unknown_field_cex :
    jget (PStorage.getSettingsDoc [("foo", JVal.num 1)]) "foo" = some (JVal.num 1) ∧
    jget (PStorage.getSettingsDoc [("foo", JVal.num 1)]) "foo" ≠ none := by
  constructor <;> decide

/-- C8 (amended): getSettings() returns an object in which each of the three
fields searchEngine, adBlockEnabled and restoreSession takes the on-disk
value when present and the fixed default otherwise; on an empty or missing
document the result is exactly the default object; and any on-disk field
outside the three is retained in the result with its on-disk value (not
dropped). -/
theorem getSettings_field_defaulting (doc : JObj) :
    jget (PStorage.getSettingsDoc doc) "searchEngine" =
      some ((jget doc "searchEngine").getD (JVal.str "duckduckgo")) ∧
    jget (PStorage.getSettingsDoc doc) "adBlockEnabled" =
      some ((jget doc "adBlockEnabled").getD (JVal.boolean true)) ∧
    jget (PStorage.getSettingsDoc doc) "restoreSession" =
      some ((jget doc "restoreSession").getD (JVal.boolean true)) ∧
    PStorage.getSettingsDoc [] = PStorage.defaultSettingsObj ∧
    (∀ k : String, k ≠ "searchEngine" → k ≠ "adBlockEnabled" → k ≠ "restoreSession" →
      jget (PStorage.getSettingsDoc doc) k = jget doc k) := by
  have base : ∀ k, jget (PStorage.getSettingsDoc doc) k =
      (List.lookup k doc).or (List.lookup k PStorage.defaultSettingsObj) := by
    intro k
    simp [jget, PStorage.getSettingsDoc, jmerge, List.lookup_append]
  refine ⟨?_, ?_, ?_, rfl, ?_⟩
  · rw [base]
    cases h : List.lookup "searchEngine" doc <;> simp [jget, h] <;> decide
  · rw [base]
    cases h : List.lookup "adBlockEnabled" doc <;> simp [jget, h] <;> decide
  · rw [base]
    cases h : List.lookup "restoreSession" doc <;> simp [jget, h] <;> decide
  · intro k h1 h2 h3
    rw [base]
    have b1 : (k == "searchEngine") = false := beq_eq_false_iff_ne.mpr h1
    have b2 : (k == "adBlockEnabled") = false := beq_eq_false_iff_ne.mpr h2
    have b3 : (k == "restoreSession") = false := beq_eq_false_iff_ne.mpr h3
    have hd : List.lookup k PStorage.defaultSettingsObj = none := by
      simp [PStorage.defaultSettingsObj, List.lookup, b1, b2, b3]
    rw [hd]
    cases hdoc : List.lookup k doc <;> simp [jget, hdoc]

/-- C8 witness: the amended theorem's retained-field clause applied to a
concrete document holding one unknown field. -/
theorem getSettings_field_defaulting_witness :
    ("foo" ≠ "searchEngine" ∧ "foo" ≠ "adBlockEnabled" ∧ "foo" ≠ "restoreSession") ∧
    jget (PStorage.getSettingsDoc [("foo", JVal.num 1)]) "foo" =
      jget [("foo", JVal.num 1)] "foo" :=
  ⟨⟨by decide, by decide, by decide⟩,
    (getSettings_field_defaulting [("foo", JVal.num 1)]).2.2.2.2 "foo"
      (by decide) (by decide) (by decide)⟩

/-!  Claim C5: history cap at 1000 entries. -/

/-- Truncating after an append is absorbed by the outer truncation. -/
lemma take_append_take {α : Type} (n : Nat) (a b : List α) :
    (a ++ b.take n).take n = (a ++ b).take n := by
  rw [List.take_append_eq_append_take, List.take_append_eq_append_take, List.take_take,
    Nat.min_eq_left (Nat.sub_le n a.length)]

/-- addHistoryEntry is unconditionally a cons followed by take 1000. -/
lemma addHistoryEntry_eq_take (url title : String) (now : Nat)
    (h : List HistoryEntry) :
    PStorage.addHistoryEntry url title now h =
      (({ url := url, title := title, visitedAt := now } : HistoryEntry) :: h).take 1000 := by
  unfold PStorage.addHistoryEntry
  by_cases hl : 1000 < h.length + 1
  · simp [hl]
  · have hle : (({ url := url, title := title, visitedAt := now } : HistoryEntry) :: h).length ≤ 1000 := by
      simp; omega
    simp [hl, List.take_of_length_le hle]

/-- Folding addHistoryEntry over a nonempty batch is a single reversed
prepend followed by take 1000. -/
lemma hist_fold (es : List HistoryEntry) (h : List HistoryEntry) :
    es.foldl (fun acc e => PStorage.addHistoryEntry e.url e.title e.visitedAt acc) h =
      if es.isEmpty then h else (es.reverse ++ h).take 1000 := by
  induction es generalizing h with
  | nil => rfl
  | cons e es ih =>
    rw [List.foldl_cons, ih]
    by_cases he : es.isEmpty
    · have hnil : es = [] := List.isEmpty_iff.mp he
      subst hnil
      simp [addHistoryEntry_eq_take]
    · have hne : es.isEmpty = false := Bool.of_not_eq_true he
      simp only [hne, List.isEmpty_cons, Bool.false_eq_true, if_false, List.reverse_cons]
      rw [addHistoryEntry_eq_take, take_append_take, List.append_assoc, List.singleton_append]

/-- The head of a truncation with positive length is the original head. -/
lemma head?_take_pos {α : Type} (n : Nat) (l : List α) (hn : 0 < n) :
    (l.take n).head? = l.head? := by
  cases l with
  | nil => simp
  | cons a t => cases n with
    | zero => omega
    | succ m => simp

/-- The per-profile document slots touched by addHistoryEntrySt: the result
state reads back the document just written. -/
lemma getHistorySt_add (url title : String) (now : Nat) (st : St) :
    getHistorySt (addHistoryEntrySt url title now st) =
      PStorage.addHistoryEntry url title now (getHistorySt st) := by
  simp [addHistoryEntrySt, getHistorySt, St.setProf, St.active, readJSON]

/-- State-level fold reduces to the document-level fold. -/
lemma getHistorySt_fold (es : List HistoryEntry) (st : St) :
    getHistorySt (es.foldl (fun s e => addHistoryEntrySt e.url e.title e.visitedAt s) st) =
      es.foldl (fun acc e => PStorage.addHistoryEntry e.url e.title e.visitedAt acc)
        (getHistorySt st) := by
  induction es generalizing st with
  | nil => rfl
  | cons e es ih => simp [List.foldl_cons, ih, getHistorySt_add]

/-- C5: from any prior state, after adding 1001 entries through
addHistoryEntry, getHistory() returns exactly 1000 entries, the first
returned entry is the most recently added one, and the result is the
truncation to the 1000 newest entries (the discarded ones are the oldest
tail). -/
theorem history_capped_at_1000 (st : St) (es : List HistoryEntry)
    (hlen : es.length = 1001) :
    (getHistorySt (es.foldl (fun s e => addHistoryEntrySt e.url e.title e.visitedAt s) st)).length = 1000 ∧
    (getHistorySt (es.foldl (fun s e => addHistoryEntrySt e.url e.title e.visitedAt s) st)).head? = es.getLast? ∧
    getHistorySt (es.foldl (fun s e => addHistoryEntrySt e.url e.title e.visitedAt s) st) =
      (es.reverse ++ getHistorySt st).take 1000 := by
  have hne : es.isEmpty = false := by
    cases es with
    | nil => simp at hlen
    | cons a t => rfl
  have key : getHistorySt (es.foldl (fun s e => addHistoryEntrySt e.url e.title e.visitedAt s) st) =
      (es.reverse ++ getHistorySt st).take 1000 := by
    rw [getHistorySt_fold, hist_fold, hne]
    simp
  refine ⟨?_, ?_, key⟩
  · rw [key, List.length_take]
    have hlen2 : (es.reverse ++ getHistorySt st).length =
        1001 + (getHistorySt st).length := by simp [hlen]
    omega
  · rw [key, head?_take_pos _ _ (by omega)]
    rw [← List.head?_reverse]
    cases hrev : es.reverse with
    | nil =>
      exfalso
      have : es = [] := List.reverse_eq_nil_iff.mp hrev
      subst this
      simp at hlen
    | cons y ys => simp

/-- C5 witness: the theorem applied to a concrete batch of 1001 entries over
the fresh state. -/
theorem history_capped_at_1000_witness :
    (List.replicate 1001 ({ url := "u", title := "t", visitedAt := 0 } : HistoryEntry)).length = 1001 ∧
    ((getHistorySt ((List.replicate 1001 ({ url := "u", title := "t", visitedAt := 0 } : HistoryEntry)).foldl
        (fun s e => addHistoryEntrySt e.url e.title e.visitedAt s) freshSt)).length = 1000 ∧
     (getHistorySt ((List.replicate 1001 ({ url := "u", title := "t", visitedAt := 0 } : HistoryEntry)).foldl
        (fun s e => addHistoryEntrySt e.url e.title e.visitedAt s) freshSt)).head? =
       (List.replicate 1001 ({ url := "u", title := "t", visitedAt := 0 } : HistoryEntry)).getLast? ∧
     getHistorySt ((List.replicate 1001 ({ url := "u", title := "t", visitedAt := 0 } : HistoryEntry)).foldl
        (fun s e => addHistoryEntrySt e.url e.title e.visitedAt s) freshSt) =
       ((List.replicate 1001 ({ url := "u", title := "t", visitedAt := 0 } : HistoryEntry)).reverse ++
         getHistorySt freshSt).take 1000) :=
  ⟨List.length_replicate 1001 _, history_capped_at_1000 freshSt _ (List.length_replicate 1001 _)⟩

/-!  Claim C6: saveDownload upsert semantics. -/

/-- Decompose a list at the first element satisfying the predicate. -/
lemma exists_first_split {α : Type} (p : α → Bool) :
    ∀ l : List α, l.any p = true →
      ∃ a x b, l = a ++ x :: b ∧ p x = true ∧ ∀ y ∈ a, p y = false
  | [], h => by simp at h
  | c :: t, h => by
    by_cases hc : p c
    · exact ⟨[], c, t, rfl, hc, by simp⟩
    · have hc2 : p c = false := Bool.of_not_eq_true hc
      have ht : t.any p = true := by simpa [List.any_cons, hc2] using h
      obtain ⟨a, x, b, hsplit, hx, ha⟩ := exists_first_split p t ht
      refine ⟨c :: a, x, b, by rw [hsplit]; rfl, hx, ?_⟩
      intro y hy
      rcases List.mem_cons.mp hy with rfl | hy
      · exact hc2
      · exact ha y hy

/-- findIdx? locates the element after a predicate-free prefix. -/
lemma findIdx?_first {α : Type} (p : α → Bool) :
    ∀ (a : List α) (x : α) (b : List α) (i : Nat),
      (∀ y ∈ a, p y = false) → p x = true →
      List.findIdx? p (a ++ x :: b) i = some (i + a.length)
  | [], x, b, i, _, hx => by simp [List.findIdx?_cons, hx]
  | c :: a, x, b, i, ha, hx => by
    have hc : p c = false := ha c (by simp)
    rw [List.cons_append, List.findIdx?_cons, hc]
    simp only [Bool.false_eq_true, if_false]
    rw [findIdx?_first p a x b (i + 1) (fun y hy => ha y (by simp [hy])) hx]
    congr 1
    rw [List.length_cons]
    omega

/-- Setting the index right after a prefix replaces the middle element. -/
lemma set_append_length {α : Type} : ∀ (a : List α) (x : α) (b : List α) (y : α),
    (a ++ x :: b).set a.length y = a ++ y :: b
  | [], x, b, y => rfl
  | c :: a, x, b, y => by
    rw [List.cons_append, List.length_cons, List.set_cons_succ, set_append_length a x b y,
      List.cons_append]

/-- saveDownload on a list holding the id replaces the first matching entry
in place (no truncation below the cap). -/
lemma saveDownload_present (a b : List DownloadItem) (x item : DownloadItem)
    (ha : ∀ y ∈ a, (y.id == item.id) = false) (hx : (x.id == item.id) = true)
    (hlen : (a ++ x :: b).length ≤ 100) :
    PStorage.saveDownload item (a ++ x :: b) = a ++ item :: b := by
  simp only [PStorage.saveDownload, findIdx?_first _ a x b 0 ha hx, Nat.zero_add,
    set_append_length]
  have hl1 : (a ++ item :: b).length ≤ 100 := by
    rw [List.length_append, List.length_cons]
    rw [List.length_append, List.length_cons] at hlen
    exact hlen
  rw [if_neg (Nat.not_lt.mpr hl1)]

/-- saveDownload on a list free of the id unshifts the item and keeps the 99
newest old entries. -/
lemma saveDownload_fresh (l : List DownloadItem) (item : DownloadItem)
    (h : ∀ y ∈ l, (y.id == item.id) = false) :
    PStorage.saveDownload item l = item :: l.take 99 := by
  have hn : List.findIdx? (fun d => d.id == item.id) l = none := by
    rw [List.findIdx?_eq_none_iff]
    intro y hy
    simp [h y hy]
  simp only [PStorage.saveDownload, hn]
  by_cases hl : 100 < (item :: l).length
  · rw [if_pos hl, show (100 : Nat) = 99 + 1 from rfl, List.take_succ_cons]
  · rw [if_neg hl]
    rw [List.length_cons] at hl
    have h99 : l.length ≤ 99 := by omega
    rw [List.take_of_length_le h99]

/-- A download item with id "x" used in the concrete C6 scenarios. -/
def dlItem (rb startedAt : Nat) (fn : String) : DownloadItem :=
  { id := "x", filename := fn, url := "u", savePath := "p", totalBytes := 9,
    receivedBytes := rb, state := DownloadState.progressing, startedAt := startedAt }

/-- C6 counterexample: the claim quantifies over every download list, but on
a starting list already holding two entries with the same id, two
saveDownload calls with that id leave two entries with the id, not exactly
one. -/
theorem saveDownload_duplicate_id_cex :
    ((PStorage.saveDownload (dlItem 2 0 "f") (PStorage.saveDownload (dlItem 1 0 "f")
        [dlItem 0 0 "f", dlItem 0 1 "g"])).filter (fun d => d.id == "x")).length = 2 ∧
    ¬ (((PStorage.saveDownload (dlItem 2 0 "f") (PStorage.saveDownload (dlItem 1 0 "f")
        [dlItem 0 0 "f", dlItem 0 1 "g"])).filter (fun d => d.id == "x")).length = 1) := by
  constructor <;> decide

/-- C6 (amended): for every download list with pairwise-distinct ids and at
most 100 entries — the invariant saveDownload itself maintains — calling
saveDownload twice with the same id and different receivedBytes leaves
exactly one entry with that id holding the latest receivedBytes, the entry
keeps the list position of its first insertion (an id already present keeps
its index; a fresh id sits at the front), and the list stays capped at 100
entries. -/
theorem saveDownload_upsert_by_id (l : List DownloadItem) (item1 item2 : DownloadItem)
    (hnd : (l.map DownloadItem.id).Nodup) (hlen : l.length ≤ 100)
    (hid : item1.id = item2.id) (hrb : item1.receivedBytes ≠ item2.receivedBytes) :
    (PStorage.saveDownload item2 (PStorage.saveDownload item1 l)).filter
        (fun d => d.id == item2.id) = [item2] ∧
    (∀ i, List.findIdx? (fun d => d.id == item1.id) l = some i →
      List.findIdx? (fun d => d.id == item2.id)
        (PStorage.saveDownload item2 (PStorage.saveDownload item1 l)) = some i) ∧
    (List.findIdx? (fun d => d.id == item1.id) l = none →
      (PStorage.saveDownload item2 (PStorage.saveDownload item1 l)).head? = some item2) ∧
    (PStorage.saveDownload item2 (PStorage.saveDownload item1 l)).length ≤ 100 := by
  by_cases hany : l.any (fun d => d.id == item1.id)
  · obtain ⟨a, x, b, hl, hx, ha⟩ := exists_first_split _ l hany
    subst hl
    have hxid : x.id = item1.id := by simpa using hx
    have hb : ∀ y ∈ b, (y.id == item1.id) = false := by
      intro y hy
      by_contra hy2
      have hyid : y.id = item1.id := by
        have : (y.id == item1.id) = true := by
          cases hcase : (y.id == item1.id) with
          | false => exact absurd hcase hy2
          | true => rfl
        simpa using this
      have hnd2 := hnd
      rw [List.map_append, List.map_cons] at hnd2
      have hxnot : x.id ∉ b.map DownloadItem.id :=
        (List.nodup_cons.mp (List.Nodup.of_append_right hnd2)).1
      exact hxnot (by rw [hxid, ← hyid]; exact List.mem_map_of_mem _ hy)
    have ha2 : ∀ y ∈ a, (y.id == item2.id) = false := by
      intro y hy; rw [← hid]; exact ha y hy
    have hb2 : ∀ y ∈ b, (y.id == item2.id) = false := by
      intro y hy; rw [← hid]; exact hb y hy
    have hx2 : (item1.id == item2.id) = true := by simp [hid]
    have s1 : PStorage.saveDownload item1 (a ++ x :: b) = a ++ item1 :: b :=
      saveDownload_present a b x item1 ha hx hlen
    have hlen2 : (a ++ item1 :: b).length ≤ 100 := by
      rw [List.length_append, List.length_cons]
      rw [List.length_append, List.length_cons] at hlen
      exact hlen
    have s2 : PStorage.saveDownload item2 (a ++ item1 :: b) = a ++ item2 :: b :=
      saveDownload_present a b item1 item2 ha2 hx2 hlen2
    rw [s1, s2]
    refine ⟨?_, ?_, ?_, ?_⟩
    · rw [List.filter_append, List.filter_cons]
      have hfa : a.filter (fun d => d.id == item2.id) = [] :=
        List.filter_eq_nil_iff.mpr (by intro y hy; simp [ha2 y hy])
      have hfb : b.filter (fun d => d.id == item2.id) = [] :=
        List.filter_eq_nil_iff.mpr (by intro y hy; simp [hb2 y hy])
      simp [hfa, hfb]
    · intro i hi
      rw [findIdx?_first _ a x b 0 ha hx] at hi
      rw [findIdx?_first _ a item2 b 0 ha2 (by simp)]
      exact hi
    · intro hnone
      rw [findIdx?_first _ a x b 0 ha hx] at hnone
      cases hnone
    · rw [List.length_append, List.length_cons]
      rw [List.length_append, List.length_cons] at hlen
      exact hlen
  · have hall : ∀ y ∈ l, (y.id == item1.id) = false := by
      have := List.any_eq_false.mp (Bool.of_not_eq_true hany)
      intro y hy
      have h2 := this y hy
      cases hcase : (y.id == item1.id) with
      | false => rfl
      | true => exact absurd hcase h2
    have s1 : PStorage.saveDownload item1 l = item1 :: l.take 99 :=
      saveDownload_fresh l item1 hall
    have hx2 : (item1.id == item2.id) = true := by simp [hid]
    have hlen99 : (([] : List DownloadItem) ++ item1 :: l.take 99).length ≤ 100 := by
      rw [List.nil_append, List.length_cons, List.length_take]
      omega
    have s2 : PStorage.saveDownload item2 ([] ++ item1 :: l.take 99) =
        [] ++ item2 :: l.take 99 :=
      saveDownload_present [] (l.take 99) item1 item2 (by simp) hx2 hlen99
    rw [List.nil_append] at s2
    rw [s1, s2, List.nil_append]
    have hall2 : ∀ y ∈ l.take 99, (y.id == item2.id) = false := by
      intro y hy; rw [← hid]; exact hall y (List.mem_of_mem_take hy)
    refine ⟨?_, ?_, ?_, ?_⟩
    · rw [List.filter_cons]
      have hft : (l.take 99).filter (fun d => d.id == item2.id) = [] :=
        List.filter_eq_nil_iff.mpr (by intro y hy; simp [hall2 y hy])
      simp [hft]
    · intro i hi
      exfalso
      have hn : List.findIdx? (fun d => d.id == item1.id) l = none := by
        rw [List.findIdx?_eq_none_iff]
        intro y hy
        simp [hall y hy]
      rw [hn] at hi
      cases hi
    · intro _
      rfl
    · rw [List.length_cons, List.length_take]
      omega

/-- C6 witness: the amended theorem applied to the empty starting list and
two upserts of id "x" with receivedBytes 1 then 2. -/
theorem saveDownload_upsert_by_id_witness :
    ((([] : List DownloadItem).map DownloadItem.id).Nodup ∧
      ([] : List DownloadItem).length ≤ 100 ∧
      (dlItem 1 0 "f").id = (dlItem 2 0 "f").id ∧
      (dlItem 1 0 "f").receivedBytes ≠ (dlItem 2 0 "f").receivedBytes) ∧
    ((PStorage.saveDownload (dlItem 2 0 "f") (PStorage.saveDownload (dlItem 1 0 "f") [])).filter
        (fun d => d.id == (dlItem 2 0 "f").id) = [dlItem 2 0 "f"] ∧
     (∀ i, List.findIdx? (fun d => d.id == (dlItem 1 0 "f").id) ([] : List DownloadItem) = some i →
       List.findIdx? (fun d => d.id == (dlItem 2 0 "f").id)
         (PStorage.saveDownload (dlItem 2 0 "f") (PStorage.saveDownload (dlItem 1 0 "f") [])) = some i) ∧
     (List.findIdx? (fun d => d.id == (dlItem 1 0 "f").id) ([] : List DownloadItem) = none →
       (PStorage.saveDownload (dlItem 2 0 "f") (PStorage.saveDownload (dlItem 1 0 "f") [])).head? =
         some (dlItem 2 0 "f")) ∧
     (PStorage.saveDownload (dlItem 2 0 "f") (PStorage.saveDownload (dlItem 1 0 "f") [])).length ≤ 100) :=
  ⟨⟨by decide, by decide, by decide, by decide⟩,
    saveDownload_upsert_by_id [] (dlItem 1 0 "f") (dlItem 2 0 "f")
      (by decide) (by decide) (by decide) (by decide)⟩

/-!  Claim C2: registration followed by login. -/

/-- C2: starting from an empty credential store, registering
"a@b.com"/"secret1" succeeds; logging in with the correct password succeeds
and leaves an AuthState with isLoggedIn = true and email = "a@b.com";
logging in with a wrong password (one whose derived hash differs, as
pbkdf2 guarantees for distinct passwords) fails with the generic
invalid-credentials result and leaves the whole state unchanged. -/
theorem register_then_login (H : String → String → String)
    (salt tok1 tok2 tok3 : String) (now : Nat)
    (hH : H "wrong" salt ≠ H "secret1" salt) :
    (registerUserSt H salt tok1 now "a@b.com" "secret1" freshSt).2.success = true ∧
    (loginUserSt H tok2 "a@b.com" "secret1"
        (registerUserSt H salt tok1 now "a@b.com" "secret1" freshSt).1).2.success = true ∧
    (getAuthStateSt (loginUserSt H tok2 "a@b.com" "secret1"
        (registerUserSt H salt tok1 now "a@b.com" "secret1" freshSt).1).1).isLoggedIn = true ∧
    (getAuthStateSt (loginUserSt H tok2 "a@b.com" "secret1"
        (registerUserSt H salt tok1 now "a@b.com" "secret1" freshSt).1).1).email = some "a@b.com" ∧
    (loginUserSt H tok3 "a@b.com" "wrong"
        (registerUserSt H salt tok1 now "a@b.com" "secret1" freshSt).1).2.success = false ∧
    (loginUserSt H tok3 "a@b.com" "wrong"
        (registerUserSt H salt tok1 now "a@b.com" "secret1" freshSt).1).2.error =
      some "Invalid email or password" ∧
    (loginUserSt H tok3 "a@b.com" "wrong"
        (registerUserSt H salt tok1 now "a@b.com" "secret1" freshSt).1).1 =
      (registerUserSt H salt tok1 now "a@b.com" "secret1" freshSt).1 := by
  have hreg : registerUserSt H salt tok1 now "a@b.com" "secret1" freshSt =
      ({ freshSt with
          credsD := .ok [{ email := "a@b.com", passwordHash := H "secret1" salt, salt := salt, createdAt := now }],
          authD := .ok { isLoggedIn := true, email := some "a@b.com", token := some tok1, profileId := some "default" } },
        { success := true, error := none }) := by
    simp [registerUserSt, freshSt, readJSON]
  rw [hreg]
  have hbad : (H "wrong" salt != H "secret1" salt) = true := bne_iff_ne.mpr hH
  refine ⟨rfl, ?_, ?_, ?_, ?_, ?_, ?_⟩ <;>
    simp [loginUserSt, readJSON, List.find?, getAuthStateSt, hbad]

/-- C2 witness: the theorem applied to a concrete hash function (password
concatenated with salt), for which the wrong password hashes differently. -/
theorem register_then_login_witness :
    ((fun p s => p ++ s) "wrong" "s" ≠ (fun p s => p ++ s) "secret1" "s") ∧
    ((registerUserSt (fun p s => p ++ s) "s" "t1" 0 "a@b.com" "secret1" freshSt).2.success = true ∧
     (loginUserSt (fun p s => p ++ s) "t2" "a@b.com" "secret1"
         (registerUserSt (fun p s => p ++ s) "s" "t1" 0 "a@b.com" "secret1" freshSt).1).2.success = true ∧
     (getAuthStateSt (loginUserSt (fun p s => p ++ s) "t2" "a@b.com" "secret1"
         (registerUserSt (fun p s => p ++ s) "s" "t1" 0 "a@b.com" "secret1" freshSt).1).1).isLoggedIn = true ∧
     (getAuthStateSt (loginUserSt (fun p s => p ++ s) "t2" "a@b.com" "secret1"
         (registerUserSt (fun p s => p ++ s) "s" "t1" 0 "a@b.com" "secret1" freshSt).1).1).email = some "a@b.com" ∧
     (loginUserSt (fun p s => p ++ s) "t3" "a@b.com" "wrong"
         (registerUserSt (fun p s => p ++ s) "s" "t1" 0 "a@b.com" "secret1" freshSt).1).2.success = false ∧
     (loginUserSt (fun p s => p ++ s) "t3" "a@b.com" "wrong"
         (registerUserSt (fun p s => p ++ s) "s" "t1" 0 "a@b.com" "secret1" freshSt).1).2.error =
       some "Invalid email or password" ∧
     (loginUserSt (fun p s => p ++ s) "t3" "a@b.com" "wrong"
         (registerUserSt (fun p s => p ++ s) "s" "t1" 0 "a@b.com" "secret1" freshSt).1).1 =
       (registerUserSt (fun p s => p ++ s) "s" "t1" 0 "a@b.com" "secret1" freshSt).1) :=
  ⟨by decide, register_then_login (fun p s => p ++ s) "s" "t1" "t2" "t3" 0 (by decide)⟩

/-!  Claim C9: switching to an unknown profile id. -/

/-- getProfiles() only ever touches the profiles document: the active
pointer, the per-profile namespaces and the auth documents are unchanged. -/
lemma getProfilesSt_fst (now : Nat) (st : St) :
    (getProfilesSt now st).1.activeProfileId = st.activeProfileId ∧
    (getProfilesSt now st).1.prof = st.prof ∧
    (getProfilesSt now st).1.credsD = st.credsD ∧
    (getProfilesSt now st).1.authD = st.authD := by
  unfold getProfilesSt
  by_cases h : (readJSON st.profilesD []).isEmpty <;> simp [h]

/-- C9: for every state and every id absent from the profile list,
switchProfile(id) returns none, leaves the active-profile pointer and every
per-profile namespace unchanged, so each subsequent profile-scoped read
still targets the previously active profile. -/
theorem switchProfile_unknown_id (st : St) (id : String) (now : Nat)
    (h : id ∉ (getProfilesSt now st).2.map Profile.id) :
    (switchProfileSt id now st).2 = none ∧
    (switchProfileSt id now st).1.activeProfileId = st.activeProfileId ∧
    (switchProfileSt id now st).1.prof = st.prof ∧
    getBookmarksSt (switchProfileSt id now st).1 = getBookmarksSt st ∧
    getHistorySt (switchProfileSt id now st).1 = getHistorySt st ∧
    getSettingsSt (switchProfileSt id now st).1 = getSettingsSt st ∧
    getSessionSt (switchProfileSt id now st).1 = getSessionSt st ∧
    getDownloadsSt (switchProfileSt id now st).1 = getDownloadsSt st := by
  have hfind : (getProfilesSt now st).2.find? (fun p => p.id == id) = none := by
    rw [List.find?_eq_none]
    intro x hx
    intro hxid
    apply h
    have hxe : x.id = id := by simpa using hxid
    rw [← hxe]
    exact List.mem_map_of_mem Profile.id hx
  obtain ⟨ha, hp, -, -⟩ := getProfilesSt_fst now st
  have hst : (switchProfileSt id now st).1 = (getProfilesSt now st).1 ∧
      (switchProfileSt id now st).2 = none := by
    unfold switchProfileSt
    simp [hfind]
  rw [hst.1]
  refine ⟨hst.2, ha, hp, ?_, ?_, ?_, ?_, ?_⟩ <;>
    simp [getBookmarksSt, getHistorySt, getSettingsSt, getSessionSt, getDownloadsSt,
      St.active, ha, hp]

/-- C9 witness: the theorem applied to the fresh state and an id that is not
in its profile list. -/
theorem switchProfile_unknown_id_witness :
    ("nope" ∉ (getProfilesSt 0 freshSt).2.map Profile.id) ∧
    ((switchProfileSt "nope" 0 freshSt).2 = none ∧
     (switchProfileSt "nope" 0 freshSt).1.activeProfileId = freshSt.activeProfileId ∧
     (switchProfileSt "nope" 0 freshSt).1.prof = freshSt.prof ∧
     getBookmarksSt (switchProfileSt "nope" 0 freshSt).1 = getBookmarksSt freshSt ∧
     getHistorySt (switchProfileSt "nope" 0 freshSt).1 = getHistorySt freshSt ∧
     getSettingsSt (switchProfileSt "nope" 0 freshSt).1 = getSettingsSt freshSt ∧
     getSessionSt (switchProfileSt "nope" 0 freshSt).1 = getSessionSt freshSt ∧
     getDownloadsSt (switchProfileSt "nope" 0 freshSt).1 = getDownloadsSt freshSt) :=
  ⟨by decide, switchProfile_unknown_id freshSt "nope" 0 (by decide)⟩

/-!  Claim C4: the default profile always exists, exactly once, and cannot
be deleted. -/

/-- The profiles-document invariant: either the document is still missing or
empty (so the next read self-initializes it), or it holds exactly one
profile with id "default". -/
def ProfInv (st : St) : Prop :=
  readJSON st.profilesD [] = [] ∨
  (readJSON st.profilesD []).countP (fun p => p.id == "default") = 1

/-- States reachable from a fresh data root through the profile
operations. -/
inductive ReachP : St → Prop where
  | fresh : ReachP freshSt
  | get (now : Nat) {st : St} : ReachP st → ReachP (getProfilesSt now st).1
  | create (name avatar : String) (now : Nat) (suffix : String) {st : St} :
      ReachP st → ReachP (createProfileSt name avatar now suffix st).1
  | del (id : String) (now : Nat) {st : St} : ReachP st → ReachP (deleteProfileSt id now st).1
  | switchP (id : String) (now : Nat) {st : St} : ReachP st → ReachP (switchProfileSt id now st).1
  | getActiveP (now : Nat) (fb : Profile) {st : St} :
      ReachP st → ReachP (getActiveProfileSt now fb st).1

/-- getProfiles() on an empty or missing document self-initializes it. -/
lemma getProfilesSt_empty (now : Nat) (st : St) (h : readJSON st.profilesD [] = []) :
    getProfilesSt now st =
      ({ st with profilesD := .ok [{ id := "default", name := "Default", avatar := "person", createdAt := now, isDefault := true }] },
       [{ id := "default", name := "Default", avatar := "person", createdAt := now, isDefault := true }]) := by
  unfold getProfilesSt
  rw [h]
  rfl

/-- getProfiles() on a state whose document is already populated is a pure
read. -/
lemma getProfilesSt_nonempty (now : Nat) (st : St)
    (h : readJSON st.profilesD [] ≠ []) :
    getProfilesSt now st = (st, readJSON st.profilesD []) := by
  have hne : (readJSON st.profilesD []).isEmpty = false := by
    cases hc : readJSON st.profilesD [] with
    | nil => exact absurd hc h
    | cons a t => rfl
  simp only [getProfilesSt]
  rw [hne]
  rfl

/-- The list returned by getProfiles() holds exactly one default profile. -/
lemma getProfilesSt_snd_countP (now : Nat) (st : St) (h : ProfInv st) :
    ((getProfilesSt now st).2).countP (fun p => p.id == "default") = 1 := by
  by_cases hc : readJSON st.profilesD [] = []
  · rw [getProfilesSt_empty now st hc]
    simp
  · rw [getProfilesSt_nonempty now st hc]
    rcases h with h | h
    · exact absurd h hc
    · exact h

/-- After getProfiles() the document content is the returned list. -/
lemma getProfilesSt_doc (now : Nat) (st : St) :
    readJSON (getProfilesSt now st).1.profilesD [] = (getProfilesSt now st).2 := by
  by_cases hc : readJSON st.profilesD [] = []
  · rw [getProfilesSt_empty now st hc]
    rfl
  · rw [getProfilesSt_nonempty now st hc]

/-- ProfInv only depends on the profiles document. -/
lemma profInv_of_eq_doc {st st2 : St} (h : st2.profilesD = st.profilesD)
    (hi : ProfInv st) : ProfInv st2 := by
  unfold ProfInv at *
  rw [h]
  exact hi

/-- A state whose profiles document holds exactly one default profile
satisfies the invariant. -/
lemma profInv_ok {st : St} {l : List Profile} (h : st.profilesD = .ok l)
    (hc : l.countP (fun p => p.id == "default") = 1) : ProfInv st := by
  unfold ProfInv
  right
  rw [h]
  exact hc

/-- getProfiles() preserves (and on first access establishes) the
invariant. -/
lemma getProfilesSt_preserves (now : Nat) (st : St) (h : ProfInv st) :
    ProfInv (getProfilesSt now st).1 := by
  right
  rw [getProfilesSt_doc]
  exact getProfilesSt_snd_countP now st h

/-- A generated profile id never collides with "default". -/
lemma profile_id_ne_default (now : Nat) (suffix : String) :
    ("profile-" ++ toString now ++ "-" ++ suffix) ≠ "default" := by
  intro h
  have hlen := congrArg String.length h
  rw [String.length_append, String.length_append, String.length_append] at hlen
  have h8 : ("profile-" : String).length = 8 := rfl
  have h1 : ("-" : String).length = 1 := rfl
  have h7 : ("default" : String).length = 7 := rfl
  rw [h8, h1, h7] at hlen
  omega

/-- createProfile preserves the invariant: the appended profile has a
"profile-" id. -/
lemma createProfileSt_preserves (name avatar : String) (now : Nat) (suffix : String)
    (st : St) (h : ProfInv st) : ProfInv (createProfileSt name avatar now suffix st).1 := by
  have hne : (("profile-" ++ toString now ++ "-" ++ suffix) == "default") = false :=
    beq_eq_false_iff_ne.mpr (profile_id_ne_default now suffix)
  apply profInv_ok (l := (getProfilesSt now st).2 ++
    [{ id := "profile-" ++ toString now ++ "-" ++ suffix, name := name, avatar := avatar, createdAt := now, isDefault := false }])
  · rfl
  · rw [List.countP_append, getProfilesSt_snd_countP now st h]
    simp [List.countP_cons, hne]

/-- deleteProfile preserves the invariant: the default entry survives the
filter, and the no-op branch is a plain getProfiles(). -/
lemma deleteProfileSt_preserves (id : String) (now : Nat) (st : St)
    (h : ProfInv st) : ProfInv (deleteProfileSt id now st).1 := by
  unfold deleteProfileSt
  by_cases hid : id = "default"
  · rw [if_pos hid]
    exact getProfilesSt_preserves now st h
  · rw [if_neg hid]
    apply getProfilesSt_preserves
    have hpred : (fun p => (p.id == "default") && (p.id != id)) =
        (fun p : Profile => p.id == "default") := by
      funext p
      by_cases hp : p.id = "default"
      · have hne : (p.id != id) = true := by
          rw [bne_iff_ne, hp]
          exact fun hc => hid hc.symm
        rw [hne, hp]
        simp
      · simp [beq_eq_false_iff_ne.mpr hp]
    have hcnt : ((getProfilesSt now st).2.filter (fun p => p.id != id)).countP
        (fun p => p.id == "default") = 1 := by
      rw [List.countP_filter, hpred]
      exact getProfilesSt_snd_countP now st h
    apply profInv_ok (l := (getProfilesSt now st).2.filter (fun p => p.id != id)) ?_ hcnt
    split <;> rfl

/-- switchProfile preserves the invariant (it never writes the profiles
document beyond the getProfiles() self-initialization). -/
lemma switchProfileSt_preserves (id : String) (now : Nat) (st : St)
    (h : ProfInv st) : ProfInv (switchProfileSt id now st).1 := by
  have h1 := getProfilesSt_preserves now st h
  unfold switchProfileSt
  cases hf : (getProfilesSt now st).2.find? (fun p => p.id == id) with
  | none => simpa [hf] using h1
  | some p =>
    simp only [hf]
    exact profInv_of_eq_doc rfl h1

/-- getActiveProfile preserves the invariant. -/
lemma getActiveProfileSt_preserves (now : Nat) (fb : Profile) (st : St)
    (h : ProfInv st) : ProfInv (getActiveProfileSt now fb st).1 := by
  unfold getActiveProfileSt
  exact getProfilesSt_preserves now st h

/-- Every reachable state satisfies the invariant. -/
lemma reachP_profInv (st : St) (h : ReachP st) : ProfInv st := by
  induction h with
  | fresh => exact Or.inl rfl
  | get now h ih => exact getProfilesSt_preserves _ _ ih
  | create name avatar now suffix h ih => exact createProfileSt_preserves _ _ _ _ _ ih
  | del id now h ih => exact deleteProfileSt_preserves _ _ _ ih
  | switchP id now h ih => exact switchProfileSt_preserves _ _ _ ih
  | getActiveP now fb h ih => exact getActiveProfileSt_preserves _ _ _ ih

/-- C4: in every state reachable from a fresh data root via the profile
operations, the profile list returned by getProfiles() holds exactly one
profile with id "default"; deleteProfile("default") is the same operation as
getProfiles(): it returns the unchanged profile list, leaves the active
pointer and every per-profile namespace unchanged, and a later getProfiles()
still returns the same list. -/
theorem default_profile_always_unique (st : St) (h : ReachP st) (now : Nat) :
    ((getProfilesSt now st).2).countP (fun p => p.id == "default") = 1 ∧
    deleteProfileSt "default" now st = getProfilesSt now st ∧
    (deleteProfileSt "default" now st).1.activeProfileId = st.activeProfileId ∧
    (deleteProfileSt "default" now st).1.prof = st.prof ∧
    (deleteProfileSt "default" now st).2 = (getProfilesSt now st).2 ∧
    (∀ now2 : Nat, (getProfilesSt now2 (deleteProfileSt "default" now st).1).2 =
      (getProfilesSt now st).2) := by
  have hinv := reachP_profInv st h
  have hdel : deleteProfileSt "default" now st = getProfilesSt now st := by
    unfold deleteProfileSt
    rw [if_pos rfl]
  have hcount := getProfilesSt_snd_countP now st hinv
  refine ⟨hcount, hdel, ?_, ?_, ?_, ?_⟩
  · rw [hdel]
    exact (getProfilesSt_fst now st).1
  · rw [hdel]
    exact (getProfilesSt_fst now st).2.1
  · rw [hdel]
  · intro now2
    rw [hdel]
    have hne : readJSON (getProfilesSt now st).1.profilesD [] ≠ [] := by
      rw [getProfilesSt_doc]
      intro hc
      rw [hc] at hcount
      simp at hcount
    rw [getProfilesSt_nonempty now2 _ hne, getProfilesSt_doc]

/-- C4 witness: the theorem applied to the fresh data root. -/
theorem default_profile_always_unique_witness :
    ReachP freshSt ∧
    (((getProfilesSt 0 freshSt).2).countP (fun p => p.id == "default") = 1 ∧
     deleteProfileSt "default" 0 freshSt = getProfilesSt 0 freshSt ∧
     (deleteProfileSt "default" 0 freshSt).1.activeProfileId = freshSt.activeProfileId ∧
     (deleteProfileSt "default" 0 freshSt).1.prof = freshSt.prof ∧
     (deleteProfileSt "default" 0 freshSt).2 = (getProfilesSt 0 freshSt).2 ∧
     (∀ now2 : Nat, (getProfilesSt now2 (deleteProfileSt "default" 0 freshSt).1).2 =
       (getProfilesSt 0 freshSt).2)) :=
  ⟨ReachP.fresh, default_profile_always_unique freshSt ReachP.fresh 0⟩

/-!  Claim C3: propagation of failures from public store operations.

Reads are guarded: readJSON and readEncrypted wrap the raw read and decode
in a try/catch.  Encrypted writes are not: writeEncrypted calls encryptData,
which fetches the app key (getAppKey) and hands it to createCipheriv outside
any try/catch, and createCipheriv throws "Invalid key length" unless the key
is exactly 32 bytes.  The persisted key file .browser-key is modelled at the
granularity createCipheriv sees: the byte list Buffer.from(content.trim(),
"hex") yields on the file's content (none = no file); a corrupt or truncated
file is a stored byte list whose length is not 32.  Once the key check
passes, the cipher calls and the file write cannot throw, and ciphertexts
are not part of the decoded-document state, so a successful encrypted write
stores the decoded document; writing a fresh key as hex reads back as the
same bytes (hexDec_hexChars below). -/

/-- The byte lists crypto.randomBytes(32) can return. -/
def Key32 := { l : List Nat // l.length = 32 }

/-- Extended on-disk state: the storage documents plus the persisted
encryption-key file at decoded-bytes granularity. -/
structure StK where
  disk : St
  keyFile : Option (List Nat)

/-- getAppKey(): return the decoded persisted key when the key file exists,
otherwise persist and return a fresh 32-byte key.  Total in itself — the
hex decode never throws; the length check happens in createCipheriv. -/
def getAppKey (freshKey : Key32) (s : StK) : StK × List Nat :=
  match s.keyFile with
  | some k => (s, k)
  | none => ({ s with keyFile := some freshKey.1 }, freshKey.1)

/-- The fallible prefix of writeEncrypted: encryptData fetches the app key
and createCipheriv rejects every key that is not 32 bytes, outside every
try/catch; the remainder of the write cannot throw. -/
def writeEncryptedE (freshKey : Key32) (s : StK) : Except String StK :=
  match getAppKey freshKey s with
  | (s1, key) => if key.length = 32 then .ok s1 else .error "Invalid key length"

/-- The persisted key file is absent or holds a well-formed 32-byte key. -/
def validKey (s : StK) : Prop :=
  ∀ k, s.keyFile = some k → k.length = 32

/-- One public operation of the storage subsystem, carrying the timestamps
and random values (id suffixes, salts, tokens, randomBytes(32) keys) it
consumes. -/
inductive Op where
  | bookmarksGetAll
  | bookmarksAdd (url title : String) (now : Nat)
  | bookmarksRemove (url : String)
  | bookmarksIsBookmarked (url : String)
  | historyGetAll
  | historyAdd (url title : String) (now : Nat)
  | historyClear
  | historySearch (query : String)
  | settingsGet
  | settingsUpdate (patch : JObj)
  | sessionSave (tabs : List SessionTab)
  | sessionGet
  | downloadsGetAll
  | downloadsSave (item : DownloadItem)
  | downloadsClear
  | profilesGetAll (now : Nat)
  | profilesCreate (name avatar : String) (now : Nat) (suffix : String)
  | profilesDelete (id : String) (now : Nat)
  | profilesSwitch (id : String) (now : Nat)
  | profilesGetActive (now : Nat) (fb : Profile)
  | authGetState
  | authRegister (email password salt token : String) (now : Nat)
      (H : String → String → String) (k1 k2 : Key32)
  | authLogin (email password token : String) (H : String → String → String) (kf : Key32)
  | authLogout (kf : Key32)

/-- The value a public operation returns to the caller. -/
inductive Val where
  | bookmarks (l : List Bookmark)
  | history (l : List HistoryEntry)
  | settingsV (o : JObj)
  | session (l : List SessionTab)
  | downloads (l : List DownloadItem)
  | profiles (l : List Profile)
  | profile (p : Profile)
  | profileOpt (p : Option Profile)
  | authStateV (a : AuthState)
  | authRes (r : AuthResult)
  | boolean (b : Bool)
  | unit

/-- Whether the operation persists an encrypted document on some path:
registerUser, loginUser and logoutUser reach writeEncrypted; every other
operation only reads, or writes plain JSON. -/
def encWrites : Op → Bool
  | .authRegister .. => true
  | .authLogin .. => true
  | .authLogout .. => true
  | _ => false

/-- readJSON / readEncrypted at the raising level: the raw read-and-decode
may fail, the surrounding try/catch converts every failure into the
fallback. -/
def readJSONE {α : Type} (doc : Except String α) (fallback : α) : Except String α :=
  match doc with
  | .ok v => .ok v
  | .error _ => .ok fallback

/-- The try/catch never propagates the read failure. -/
lemma readJSONE_eq {α : Type} (doc : Except String α) (fallback : α) :
    readJSONE doc fallback = .ok (readJSON doc fallback) := by
  cases doc <;> rfl

/-- getProfiles() at the raising level. -/
def getProfilesE (now : Nat) (st : St) : Except String (St × List Profile) := do
  let profiles ← readJSONE st.profilesD []
  if profiles.isEmpty then
    let defp : Profile := { id := "default", name := "Default", avatar := "person", createdAt := now, isDefault := true }
    pure ({ st with profilesD := .ok [defp] }, [defp])
  else
    pure (st, profiles)

/-- A nonempty list evaluates isEmpty to false. -/
lemma isEmpty_false_of_ne {α : Type} (l : List α) (h : l ≠ []) : l.isEmpty = false := by
  cases l with
  | nil => exact absurd rfl h
  | cons a t => rfl

/-- getProfilesE agrees with the pure transition (it never raises). -/
lemma getProfilesE_eq (now : Nat) (st : St) :
    getProfilesE now st = .ok (getProfilesSt now st) := by
  by_cases hc : readJSON st.profilesD [] = []
  · rw [getProfilesSt_empty now st hc]
    unfold getProfilesE
    rw [readJSONE_eq, hc]
    rfl
  · rw [getProfilesSt_nonempty now st hc]
    unfold getProfilesE
    rw [readJSONE_eq]
    show (if (readJSON st.profilesD []).isEmpty = true then _ else _) = _
    rw [isEmpty_false_of_ne _ hc]
    rfl

/-- Dispatch of the public operation catalog over the raising embedding:
every read goes through the try/catch reader, plain-JSON writes store a
decoded document, and every encrypted write goes through the uncaught
createCipheriv key check. -/
def runOp : Op → StK → Except String (StK × Val)
  | .bookmarksGetAll, s => do
      let bs ← readJSONE s.disk.active.bookmarksD []
      pure (s, .bookmarks bs)
  | .bookmarksAdd url title now, s => do
      let bs ← readJSONE s.disk.active.bookmarksD []
      let bs2 := PStorage.addBookmark url title now bs
      pure ({ s with disk := s.disk.setProf s.disk.activeProfileId { s.disk.active with bookmarksD := .ok bs2 } }, .bookmarks bs2)
  | .bookmarksRemove url, s => do
      let bs ← readJSONE s.disk.active.bookmarksD []
      let bs2 := PStorage.removeBookmark url bs
      pure ({ s with disk := s.disk.setProf s.disk.activeProfileId { s.disk.active with bookmarksD := .ok bs2 } }, .bookmarks bs2)
  | .bookmarksIsBookmarked url, s => do
      let bs ← readJSONE s.disk.active.bookmarksD []
      pure (s, .boolean (PStorage.isBookmarked url bs))
  | .historyGetAll, s => do
      let h ← readJSONE s.disk.active.historyD []
      pure (s, .history h)
  | .historyAdd url title now, s => do
      let h ← readJSONE s.disk.active.historyD []
      let h2 := PStorage.addHistoryEntry url title now h
      pure ({ s with disk := s.disk.setProf s.disk.activeProfileId { s.disk.active with historyD := .ok h2 } }, .unit)
  | .historyClear, s =>
      pure ({ s with disk := s.disk.setProf s.disk.activeProfileId { s.disk.active with historyD := .ok PStorage.clearHistory } }, .unit)
  | .historySearch query, s => do
      let h ← readJSONE s.disk.active.historyD []
      pure (s, .history (PStorage.searchHistory query h))
  | .settingsGet, s => do
      let sdoc ← readJSONE s.disk.active.settingsD []
      pure (s, .settingsV (PStorage.getSettingsDoc sdoc))
  | .settingsUpdate patch, s => do
      let sdoc ← readJSONE s.disk.active.settingsD []
      let s2 := PStorage.updateSettingsDoc patch sdoc
      pure ({ s with disk := s.disk.setProf s.disk.activeProfileId { s.disk.active with settingsD := .ok s2 } }, .settingsV s2)
  | .sessionSave tabs, s =>
      pure ({ s with disk := s.disk.setProf s.disk.activeProfileId { s.disk.active with sessionD := .ok (PStorage.saveSession tabs) } }, .unit)
  | .sessionGet, s => do
      let tl ← readJSONE s.disk.active.sessionD []
      pure (s, .session tl)
  | .downloadsGetAll, s => do
      let d ← readJSONE s.disk.active.downloadsD []
      pure (s, .downloads d)
  | .downloadsSave item, s => do
      let d ← readJSONE s.disk.active.downloadsD []
      let d2 := PStorage.saveDownload item d
      pure ({ s with disk := s.disk.setProf s.disk.activeProfileId { s.disk.active with downloadsD := .ok d2 } }, .unit)
  | .downloadsClear, s =>
      pure ({ s with disk := s.disk.setProf s.disk.activeProfileId { s.disk.active with downloadsD := .ok PStorage.clearDownloads } }, .unit)
  | .profilesGetAll now, s => do
      let (st1, ps) ← getProfilesE now s.disk
      pure ({ s with disk := st1 }, .profiles ps)
  | .profilesCreate name avatar now suffix, s => do
      let (st1, profiles) ← getProfilesE now s.disk
      let p : Profile := { id := "profile-" ++ toString now ++ "-" ++ suffix, name := name, avatar := avatar, createdAt := now, isDefault := false }
      pure ({ s with disk := { st1 with profilesD := .ok (profiles ++ [p]) } }, .profile p)
  | .profilesDelete id now, s =>
      if id = "default" then do
        let (st1, ps) ← getProfilesE now s.disk
        pure ({ s with disk := st1 }, .profiles ps)
      else do
        let (st1, profs) ← getProfilesE now s.disk
        let profiles := profs.filter (fun p => p.id != id)
        let st2 := { st1 with profilesD := .ok profiles }
        let st3 := st2.setProf id emptyProfDocs
        let st4 := if st3.activeProfileId = id then { st3 with activeProfileId := "default" } else st3
        let (st5, ps) ← getProfilesE now st4
        pure ({ s with disk := st5 }, .profiles ps)
  | .profilesSwitch id now, s => do
      let (st1, profiles) ← getProfilesE now s.disk
      match profiles.find? (fun p => p.id == id) with
      | none => pure ({ s with disk := st1 }, .profileOpt none)
      | some p => pure ({ s with disk := { st1 with activeProfileId := id } }, .profileOpt (some p))
  | .profilesGetActive now fb, s => do
      let (st1, profiles) ← getProfilesE now s.disk
      pure ({ s with disk := st1 }, .profile ((profiles.find? (fun p => p.id == st1.activeProfileId)).getD (profiles.headD fb)))
  | .authGetState, s => do
      let a ← readJSONE s.disk.authD { isLoggedIn := false, email := none, token := none, profileId := none }
      pure (s, .authStateV a)
  | .authRegister email password salt token now H k1 k2, s => do
      let creds ← readJSONE s.disk.credsD []
      if creds.any (fun c => c.email == email) then
        pure (s, .authRes { success := false, error := some "Email already registered" })
      else
        let rec_ : AuthCredentials := { email := email, passwordHash := H password salt, salt := salt, createdAt := now }
        let s1 ← writeEncryptedE k1 s
        let s2 := { s1 with disk := { s1.disk with credsD := .ok (creds ++ [rec_]) } }
        let authv : AuthState := { isLoggedIn := true, email := some email, token := some token, profileId := some s2.disk.activeProfileId }
        let s3 ← writeEncryptedE k2 s2
        pure ({ s3 with disk := { s3.disk with authD := .ok authv } }, .authRes { success := true, error := none })
  | .authLogin email password token H kf, s => do
      let creds ← readJSONE s.disk.credsD []
      match creds.find? (fun c => c.email == email) with
      | none => pure (s, .authRes { success := false, error := some "Invalid email or password" })
      | some user =>
        if H password user.salt != user.passwordHash then
          pure (s, .authRes { success := false, error := some "Invalid email or password" })
        else do
          let authv : AuthState := { isLoggedIn := true, email := some email, token := some token, profileId := some s.disk.activeProfileId }
          let s1 ← writeEncryptedE kf s
          pure ({ s1 with disk := { s1.disk with authD := .ok authv } }, .authRes { success := true, error := none })
  | .authLogout kf, s => do
      let s1 ← writeEncryptedE kf s
      pure ({ s1 with disk := { s1.disk with authD := .ok { isLoggedIn := false, email := none, token := none, profileId := none } } }, .unit)

/-- A bind whose first step already succeeded raises only if its
continuation does. -/
lemma exists_ok_bind {α β : Type} (v : α) (k : α → Except String β)
    (hk : ∃ o, k v = .ok o) : ∃ o, ((Except.ok v : Except String α) >>= k) = .ok o := hk

/-- On a well-formed key state writeEncrypted succeeds, leaves the documents
alone, and keeps the key state well formed. -/
lemma writeEncryptedE_ok (kf : Key32) (s : StK) (h : validKey s) :
    ∃ s2, writeEncryptedE kf s = .ok s2 ∧ validKey s2 ∧ s2.disk = s.disk := by
  cases hkf : s.keyFile with
  | none =>
    refine ⟨{ s with keyFile := some kf.1 }, ?_, ?_, rfl⟩
    · simp only [writeEncryptedE, getAppKey, hkf]
      rw [if_pos kf.2]
    · intro k2 hk2
      have hsome : some kf.1 = some k2 := hk2
      cases hsome
      exact kf.2
  | some kb =>
    have h32 := h kb hkf
    refine ⟨s, ?_, h, rfl⟩
    simp only [writeEncryptedE, getAppKey, hkf]
    rw [if_pos h32]

/-- Binding through writeEncrypted on a well-formed key state succeeds when
the continuation does on every well-formed successor with the same
documents. -/
lemma writeEncryptedE_bind_ok {β : Type} (kf : Key32) (s : StK) (h : validKey s)
    (k : StK → Except String β)
    (hk : ∀ s2, validKey s2 → s2.disk = s.disk → ∃ o, k s2 = .ok o) :
    ∃ o, (writeEncryptedE kf s >>= k) = .ok o := by
  obtain ⟨s2, hw, hv2, hd⟩ := writeEncryptedE_ok kf s h
  rw [hw]
  exact hk s2 hv2 hd

/-- C3 counterexample: with a corrupt persisted key file — its content
hex-decodes to three bytes instead of 32 — logoutUser reaches createCipheriv
outside any try/catch and the public operation raises instead of returning
normally, refuting the claim that no public store operation ever raises. -/
theorem store_operation_raises_cex :
    runOp (Op.authLogout ⟨List.replicate 32 0, rfl⟩)
        { disk := freshSt, keyFile := some [1, 2, 3] } =
      Except.error "Invalid key length" := rfl

/-- C3 (amended): for every input and every prior on-disk state, including
missing or corrupt documents, every public store operation whose
prerequisite holds returns normally: operations that only read or write
plain JSON (bookmarks, history, settings, session, downloads, profiles,
auth.getState) never raise for any state, and the operations that persist an
encrypted document (registerUser, loginUser, logoutUser) return normally
provided the persisted key file is absent or decodes to a 32-byte key —
with a corrupt key file these raise the uncaught Invalid key length
error. -/
theorem store_operations_raise_only_on_corrupt_key (op : Op) (s : StK)
    (h : validKey s ∨ encWrites op = false) :
    ∃ out, runOp op s = Except.ok out := by
  cases op
  case authRegister email password salt token now H k1 k2 =>
    have hv : validKey s := by
      rcases h with hv | hno
      · exact hv
      · simp [encWrites] at hno
    simp only [runOp]
    rw [readJSONE_eq]
    apply exists_ok_bind
    split
    · exact ⟨_, rfl⟩
    · apply writeEncryptedE_bind_ok k1 s hv
      intro s2 hv2 hd2
      apply writeEncryptedE_bind_ok
      · exact hv2
      · intro s3 hv3 hd3
        exact ⟨_, rfl⟩
  case authLogin email password token H kf =>
    have hv : validKey s := by
      rcases h with hv | hno
      · exact hv
      · simp [encWrites] at hno
    simp only [runOp]
    rw [readJSONE_eq]
    apply exists_ok_bind
    split
    · exact ⟨_, rfl⟩
    · split
      · exact ⟨_, rfl⟩
      · apply writeEncryptedE_bind_ok kf s hv
        intro s2 hv2 hd2
        exact ⟨_, rfl⟩
  case authLogout kf =>
    have hv : validKey s := by
      rcases h with hv | hno
      · exact hv
      · simp [encWrites] at hno
    simp only [runOp]
    apply writeEncryptedE_bind_ok kf s hv
    intro s2 hv2 hd2
    exact ⟨_, rfl⟩
  all_goals
    simp only [runOp] <;>
      repeat first
        | exact ⟨_, rfl⟩
        | split
        | (rw [readJSONE_eq]; apply exists_ok_bind)
        | (rw [getProfilesE_eq]; apply exists_ok_bind)

/-- C3 witness: the amended theorem applied to logoutUser on a fresh data
root whose key file does not exist yet. -/
theorem store_operations_raise_only_on_corrupt_key_witness :
    (validKey { disk := freshSt, keyFile := none } ∨
      encWrites (Op.authLogout ⟨List.replicate 32 0, rfl⟩) = false) ∧
    ∃ out, runOp (Op.authLogout ⟨List.replicate 32 0, rfl⟩)
        { disk := freshSt, keyFile := none } = Except.ok out :=
  ⟨Or.inl (fun k hk => nomatch hk),
    store_operations_raise_only_on_corrupt_key (Op.authLogout ⟨List.replicate 32 0, rfl⟩)
      { disk := freshSt, keyFile := none } (Or.inl (fun k hk => nomatch hk))⟩
/-!  Claim C1: encryption envelope round-trip.

The AES-256-GCM cipher calls of the Node crypto library are abstracted as a
structure carrying the library contract the source relies on: the hex
ciphertext emitted by cipher.update/final contains no colon, getAuthTag
returns bytes, and decipher with the matching key, iv and tag inverts
encryption.  The repository's own code — hex encoding of iv and tag, the
colon-delimited envelope, the three-part split and the fail-closed parse —
is modelled concretely. -/

/-- One hex digit (lowercase), as Buffer.toString("hex") emits. -/
def hexDigit (n : Nat) : Char :=
  if n < 10 then Char.ofNat (48 + n) else Char.ofNat (87 + n)

/-- Hex expansion of a byte list, two digits per byte. -/
def hexChars : List Nat → List Char
  | [] => []
  | b :: t => hexDigit (b / 16) :: hexDigit (b % 16) :: hexChars t

/-- Buffer.toString("hex"). -/
def hexEnc (bs : List Nat) : String := ⟨hexChars bs⟩

/-- Numeric value of a hex digit character. -/
def hexVal (c : Char) : Nat :=
  if c.toNat ≤ 57 then c.toNat - 48 else c.toNat - 87

/-- Whether a character is a lowercase hex digit. -/
def isHexDigit (c : Char) : Bool :=
  (48 ≤ c.toNat && c.toNat ≤ 57) || (97 ≤ c.toNat && c.toNat ≤ 102)

/-- Buffer.from(s, "hex"): decode hex digit pairs, stopping at the first
invalid pair or odd remainder. -/
def hexDec : List Char → List Nat
  | a :: b :: rest =>
    if isHexDigit a && isHexDigit b then (hexVal a * 16 + hexVal b) :: hexDec rest
    else []
  | _ => []

/-- JavaScript String.prototype.split with a single-character separator. -/
def splitCh (sep : Char) : List Char → List (List Char)
  | [] => [[]]
  | c :: cs =>
    match splitCh sep cs with
    | [] => [[]]
    | g :: gs => if c = sep then [] :: g :: gs else (c :: g) :: gs

/-- The contract of the Node crypto AES-256-GCM calls the storage module
uses: encStr is cipher.update(data,"utf-8","hex") ++ cipher.final("hex"),
tagOf is cipher.getAuthTag(), decStr is the decipher pipeline returning
none when authentication fails. -/
structure GCM where
  encStr : List Nat → List Nat → String → String
  tagOf : List Nat → List Nat → String → List Nat
  decStr : List Nat → List Nat → List Nat → String → Option String
  tag_bytes : ∀ k iv s, ∀ b ∈ tagOf k iv s, b < 256
  enc_no_colon : ∀ k iv s, ∀ c ∈ (encStr k iv s).data, c ≠ ':'
  dec_enc : ∀ k iv s, decStr k iv (tagOf k iv s) (encStr k iv s) = some s

/-- encryptData(data): fresh iv, cipher, then the envelope
ivHex:tagHex:cipherHex. -/
def encryptData (G : GCM) (key iv : List Nat) (data : String) : String :=
  hexEnc iv ++ ":" ++ hexEnc (G.tagOf key iv data) ++ ":" ++ G.encStr key iv data

/-- decryptData(str): split on the colon, throw (modelled as none) unless
exactly three parts, hex-decode iv and tag, run the decipher (whose
authentication failure is also none). -/
def decryptData (G : GCM) (key : List Nat) (s : String) : Option String :=
  match splitCh ':' s.data with
  | [p0, p1, p2] => G.decStr key (hexDec p0) (hexDec p1) ⟨p2⟩
  | _ => none

/-- Evaluation facts for single hex digits. -/
lemma hexDigit_facts : ∀ n, n < 16 →
    hexVal (hexDigit n) = n ∧ isHexDigit (hexDigit n) = true ∧ hexDigit n ≠ ':' := by
  decide

/-- Hex expansion contains no colon. -/
lemma hexChars_no_colon (bs : List Nat) (h : ∀ b ∈ bs, b < 256) :
    ∀ c ∈ hexChars bs, c ≠ ':' := by
  induction bs with
  | nil => intro c hc; simp [hexChars] at hc
  | cons b t ih =>
    intro c hc
    have hb : b < 256 := h b (by simp)
    have h1 : b / 16 < 16 := by omega
    have h2 : b % 16 < 16 := by omega
    rcases List.mem_cons.mp hc with hc | hc
    · exact hc ▸ (hexDigit_facts _ h1).2.2
    · rcases List.mem_cons.mp hc with hc | hc
      · exact hc ▸ (hexDigit_facts _ h2).2.2
      · exact ih (fun x hx => h x (by simp [hx])) c hc

/-- Hex decoding inverts hex encoding on byte lists. -/
lemma hexDec_hexChars (bs : List Nat) (h : ∀ b ∈ bs, b < 256) :
    hexDec (hexChars bs) = bs := by
  induction bs with
  | nil => rfl
  | cons b t ih =>
    have hb : b < 256 := h b (by simp)
    have h1 : b / 16 < 16 := by omega
    have h2 : b % 16 < 16 := by omega
    have d1 := hexDigit_facts _ h1
    have d2 := hexDigit_facts _ h2
    show hexDec (hexDigit (b / 16) :: hexDigit (b % 16) :: hexChars t) = b :: t
    unfold hexDec
    rw [d1.2.1, d2.2.1]
    simp only [Bool.and_self, if_true]
    rw [d1.1, d2.1, ih (fun x hx => h x (by simp [hx]))]
    congr 1
    omega

/-- Splitting a separator-free list yields one group. -/
lemma splitCh_no_sep (sep : Char) (a : List Char) (h : ∀ c ∈ a, c ≠ sep) :
    splitCh sep a = [a] := by
  induction a with
  | nil => rfl
  | cons c t ih =>
    have hct : ∀ x ∈ t, x ≠ sep := fun x hx => h x (by simp [hx])
    show splitCh sep (c :: t) = [c :: t]
    unfold splitCh
    rw [ih hct]
    show (if c = sep then [] :: t :: ([] : List (List Char)) else (c :: t) :: []) = [c :: t]
    rw [if_neg (h c (by simp))]

/-- Splitting after a separator-free prefix peels off one group. -/
lemma splitCh_prepend (sep : Char) (a r : List Char) (g : List Char)
    (gs : List (List Char)) (h : ∀ c ∈ a, c ≠ sep)
    (hr : splitCh sep r = g :: gs) :
    splitCh sep (a ++ sep :: r) = a :: g :: gs := by
  induction a with
  | nil =>
    show splitCh sep (sep :: r) = [] :: g :: gs
    unfold splitCh
    rw [hr]
    show (if sep = sep then [] :: g :: gs else (sep :: g) :: gs) = [] :: g :: gs
    rw [if_pos rfl]
  | cons c t ih =>
    have hct : ∀ x ∈ t, x ≠ sep := fun x hx => h x (by simp [hx])
    show splitCh sep (c :: (t ++ sep :: r)) = (c :: t) :: g :: gs
    unfold splitCh
    rw [ih hct]
    show (if c = sep then [] :: t :: g :: gs else (c :: t) :: g :: gs) = (c :: t) :: g :: gs
    rw [if_neg (h c (by simp))]

/-- C1: for every cipher satisfying the library contract, every key, every
byte iv and every plaintext string — including the empty string and strings
containing the colon delimiter — decryptData(encryptData(x)) returns x. -/
theorem encrypt_decrypt_roundtrip (G : GCM) (key iv : List Nat)
    (hiv : ∀ b ∈ iv, b < 256) (data : String) :
    decryptData G key (encryptData G key iv data) = some data := by
  have htag := G.tag_bytes key iv data
  have hdata : (encryptData G key iv data).data =
      hexChars iv ++ ':' :: (hexChars (G.tagOf key iv data) ++ ':' :: (G.encStr key iv data).data) := by
    show (hexEnc iv ++ ":" ++ hexEnc (G.tagOf key iv data) ++ ":" ++ G.encStr key iv data).data = _
    rw [String.data_append, String.data_append, String.data_append, String.data_append]
    simp [hexEnc, List.append_assoc]
  have hsplit : splitCh ':' (encryptData G key iv data).data =
      [hexChars iv, hexChars (G.tagOf key iv data), (G.encStr key iv data).data] := by
    rw [hdata]
    apply splitCh_prepend ':' (hexChars iv) _ _ _ (hexChars_no_colon iv hiv)
    apply splitCh_prepend ':' (hexChars (G.tagOf key iv data)) _ _ _
      (hexChars_no_colon _ htag)
    exact splitCh_no_sep ':' _ (G.enc_no_colon key iv data)
  unfold decryptData
  rw [hsplit]
  show G.decStr key (hexDec (hexChars iv)) (hexDec (hexChars (G.tagOf key iv data)))
      ⟨(G.encStr key iv data).data⟩ = some data
  rw [hexDec_hexChars iv hiv, hexDec_hexChars _ htag]
  exact G.dec_enc key iv data

/-- Big-endian three-byte expansion of a character's code point. -/
def charBytes (c : Char) : List Nat :=
  [c.toNat / 65536, c.toNat / 256 % 256, c.toNat % 256]

/-- Byte serialization of a string, three bytes per character. -/
def strBytes (s : String) : List Nat := s.data.flatMap charBytes

/-- Inverse of the three-byte expansion. -/
def bytesToChars : List Nat → Option (List Char)
  | [] => some []
  | a :: b :: c :: rest =>
    (bytesToChars rest).map (fun l => Char.ofNat (a * 65536 + b * 256 + c) :: l)
  | _ => none

/-- A character's code point is below 1114112. -/
lemma char_toNat_lt (c : Char) : c.toNat < 1114112 := by
  rcases c.valid with h | ⟨h1, h2⟩
  · exact Nat.lt_trans h (by norm_num)
  · exact h2

/-- The serialized bytes are bytes. -/
lemma strBytes_lt (s : String) : ∀ b ∈ strBytes s, b < 256 := by
  intro b hb
  rw [strBytes, List.mem_flatMap] at hb
  obtain ⟨c, hc, hbc⟩ := hb
  have hlt := char_toNat_lt c
  rw [charBytes] at hbc
  rcases List.mem_cons.mp hbc with h | hbc2
  · omega
  rcases List.mem_cons.mp hbc2 with h | hbc3
  · omega
  rcases List.mem_cons.mp hbc3 with h | hbc4
  · omega
  simp at hbc4

/-- Deserialization inverts serialization. -/
lemma bytesToChars_flat (l : List Char) :
    bytesToChars (l.flatMap charBytes) = some l := by
  induction l with
  | nil => rfl
  | cons c t ih =>
    show bytesToChars (charBytes c ++ t.flatMap charBytes) = some (c :: t)
    show bytesToChars (c.toNat / 65536 :: c.toNat / 256 % 256 :: c.toNat % 256 ::
      t.flatMap charBytes) = some (c :: t)
    unfold bytesToChars
    rw [ih]
    have harith : c.toNat / 65536 * 65536 + c.toNat / 256 % 256 * 256 + c.toNat % 256 =
        c.toNat := by omega
    rw [harith, Char.ofNat_toNat]
    rfl

/-- A concrete cipher satisfying the GCM contract: the ciphertext is the hex
expansion of the plaintext's byte serialization, the tag is empty, and
decryption inverts both steps. -/
def G0 : GCM where
  encStr := fun _ _ s => hexEnc (strBytes s)
  tagOf := fun _ _ _ => []
  decStr := fun _ _ _ ct => (bytesToChars (hexDec ct.data)).map (fun l => ⟨l⟩)
  tag_bytes := by
    intro k iv s b hb
    simp at hb
  enc_no_colon := by
    intro k iv s c hc
    exact hexChars_no_colon (strBytes s) (strBytes_lt s) c hc
  dec_enc := by
    intro k iv s
    show (bytesToChars (hexDec (hexEnc (strBytes s)).data)).map (fun l => (⟨l⟩ : String)) = some s
    have hdata : (hexEnc (strBytes s)).data = hexChars (strBytes s) := rfl
    rw [hdata, hexDec_hexChars _ (strBytes_lt s), strBytes, bytesToChars_flat]
    rfl

/-- C1 witness: the round-trip theorem applied to the concrete cipher, a
two-byte iv, the empty string and a string containing the colon
delimiter. -/
theorem encrypt_decrypt_roundtrip_witness :
    (∀ b ∈ [0, 255], b < 256) ∧
    decryptData G0 [] (encryptData G0 [] [0, 255] "a:b") = some "a:b" ∧
    decryptData G0 [] (encryptData G0 [] [0, 255] "") = some "" :=
  ⟨by decide,
    encrypt_decrypt_roundtrip G0 [] [0, 255] (by decide) "a:b",
    encrypt_decrypt_roundtrip G0 [] [0, 255] (by decide) ""⟩
